import Mathlib

set_option maxRecDepth 4000

/-!
Verification of the non-empty string library.

The embedding models the contents of a Rust `str` / `String` as a list of
Unicode scalar values (`List Char`).  Byte positions and byte lengths are
computed through the UTF-8 width of each character (`lenUtf8`), so that the
library's byte-index operations (`split_at`, `truncate`, `insert`, `remove`,
`split_off`) and its "last character" guard (`next_empty`) are modelled at
the same granularity as the source.  Operations that panic in the source
(out-of-bounds or off-boundary indices) return `Option.none`; fallible
constructors return `Except`.  Raw-byte conversions (`from_utf8`) operate on
`List Nat` byte sequences and run an explicit UTF-8 decoder.  Capacity-only
operations (`reserve`, `shrink_to_fit`, `shrink_to`) do not change the
contents of the buffer and are modelled as the identity on contents.
-/

/-- UTF-8 byte width of one character, as computed by the host primitive
char::len_utf8: 1 below 0x80, 2 below 0x800, 3 below 0x10000, 4 otherwise. -/
def lenUtf8 (c : Char) : Nat :=
  if c.toNat < 0x80 then 1
  else if c.toNat < 0x800 then 2
  else if c.toNat < 0x10000 then 3
  else 4

/-- Byte length of a string (str::len), the sum of the UTF-8 widths of its
characters. -/
def strLen (s : List Char) : Nat :=
  (s.map lenUtf8).sum

/-- Splitting a string at a byte index.  Returns the two halves when the index
lies on a character boundary within bounds (the end of the string included),
and none otherwise.  This is the common core of the byte-indexed operations
of the source: str::split_at, String::truncate, String::insert,
String::remove and String::split_off. -/
def splitAtByte : List Char → Nat → Option (List Char × List Char)
  | s, 0 => some ([], s)
  | [], _ + 1 => none
  | c :: cs, i + 1 =>
    if lenUtf8 c ≤ i + 1 then
      (splitAtByte cs (i + 1 - lenUtf8 c)).map fun p => (c :: p.1, p.2)
    else none

/-- Character-boundary test (str::is_char_boundary): index zero and the total
length are boundaries, an index beyond the end is not, and an interior index
is a boundary exactly when it is the total width of a prefix of characters. -/
def strIsCharBoundary : List Char → Nat → Bool
  | _, 0 => true
  | [], _ + 1 => false
  | c :: cs, i + 1 =>
    if lenUtf8 c ≤ i + 1 then strIsCharBoundary cs (i + 1 - lenUtf8 c) else false

/-- Repetition of a string (str::repeat). -/
def strRepeat (s : List Char) (count : Nat) : List Char :=
  (List.replicate count s).flatten

/-- The type non_zero_size::Size of non-zero sizes: a usize that is non-zero
at the type level. -/
abbrev Size := {n : Nat // 0 < n}

/-- Error returned when a received string slice is empty (str.rs).  In the
source this is a unit struct: pub struct EmptyStr; it has no field and
carries no data. -/
inductive EmptyStr
  | mk
  deriving DecidableEq

/-- The borrowed view over a non-empty string slice (NonEmptyStr in str.rs).
The non-empty invariant is stated by the theorems, not baked into the type. -/
structure NonEmptyStr where
  inner : List Char
  deriving DecidableEq

/-- Checked constructor of the borrowed view (NonEmptyStr::try_from_str):
fails with EmptyStr exactly when the slice is empty, otherwise wraps it. -/
def NonEmptyStr.try_from_str (string : List Char) : Except EmptyStr NonEmptyStr :=
  if string = [] then .error .mk else .ok ⟨string⟩

/-- Option-returning constructor of the borrowed view (NonEmptyStr::from_str). -/
def NonEmptyStr.from_str (string : List Char) : Option NonEmptyStr :=
  if string = [] then none else some ⟨string⟩

/-- Extraction of the wrapped slice (NonEmptyStr::as_str). -/
def NonEmptyStr.as_str (s : NonEmptyStr) : List Char :=
  s.inner

/-- Byte length of the borrowed view (NonEmptyStr::len); the source returns
this as a Size built with Size::new_unchecked. -/
def NonEmptyStr.len (s : NonEmptyStr) : Nat :=
  strLen s.inner

/-- Boundary test on the borrowed view (NonEmptyStr::is_char_boundary). -/
def NonEmptyStr.is_char_boundary (s : NonEmptyStr) (index : Nat) : Bool :=
  strIsCharBoundary s.inner index

/-- Splitting the borrowed view at a non-zero byte index
(NonEmptyStr::split_at).  The source panics when the index is out of bounds
or off a character boundary; the panic is modelled as none.  On success the
left half is re-wrapped as non-empty and the right half is returned plain. -/
def NonEmptyStr.split_at (s : NonEmptyStr) (index : Size) :
    Option (NonEmptyStr × List Char) :=
  (splitAtByte s.inner index.val).map fun p => (⟨p.1⟩, p.2)

/-- Checked splitting (NonEmptyStr::split_at_checked): same computation, but
the none outcome is an ordinary return value instead of a panic. -/
def NonEmptyStr.split_at_checked (s : NonEmptyStr) (index : Size) :
    Option (NonEmptyStr × List Char) :=
  match splitAtByte s.inner index.val with
  | some (l, r) => some (⟨l⟩, r)
  | none => none

/-- Error returned when a received owned String is empty (string.rs).  Unlike
EmptyStr it holds the rejected string, recoverable through get. -/
structure EmptyString where
  string : List Char
  deriving DecidableEq

/-- Recovery of the rejected string from the error (EmptyString::get). -/
def EmptyString.get (e : EmptyString) : List Char :=
  e.string

/-- The owned growable buffer (NonEmptyString in string.rs).  The non-empty
invariant is stated by the theorems, not baked into the type. -/
structure NonEmptyString where
  inner : List Char
  deriving DecidableEq

/-- Checked constructor of the owned buffer (NonEmptyString::new): fails with
EmptyString carrying the rejected string exactly when it is empty. -/
def NonEmptyString.new (string : List Char) : Except EmptyString NonEmptyString :=
  if string = [] then .error ⟨string⟩ else .ok ⟨string⟩

/-- Extraction of the wrapped string by move (NonEmptyString::into_string). -/
def NonEmptyString.into_string (s : NonEmptyString) : List Char :=
  s.inner

/-- Extraction of the wrapped string by reference (NonEmptyString::as_string). -/
def NonEmptyString.as_string (s : NonEmptyString) : List Char :=
  s.inner

/-- Byte length of the owned buffer (NonEmptyString::len); the source returns
this as a Size built with Size::new_unchecked. -/
def NonEmptyString.len (s : NonEmptyString) : Nat :=
  strLen s.inner

/-- Appending one character (NonEmptyString::push, delegating to
String::push). -/
def NonEmptyString.push (s : NonEmptyString) (character : Char) : NonEmptyString :=
  ⟨s.inner ++ [character]⟩

/-- Appending a string (NonEmptyString::push_str, delegating to
String::push_str). -/
def NonEmptyString.push_str (s : NonEmptyString) (string : List Char) : NonEmptyString :=
  ⟨s.inner ++ string⟩

/-- Extending from a sequence of string-likes (the Extend implementations,
which repeatedly append onto the wrapped String). -/
def NonEmptyString.extend (s : NonEmptyString) (iterable : List (List Char)) :
    NonEmptyString :=
  iterable.foldl (fun acc string => acc.push_str string) s

/-- Capacity reservation (NonEmptyString::reserve).  The additional capacity
is a non-zero Size; the contents of the buffer are unchanged. -/
def NonEmptyString.reserve (s : NonEmptyString) (additional : Size) : NonEmptyString :=
  s

/-- Capacity shrink (NonEmptyString::shrink_to_fit); contents unchanged. -/
def NonEmptyString.shrink_to_fit (s : NonEmptyString) : NonEmptyString :=
  s

/-- Bounded capacity shrink (NonEmptyString::shrink_to); contents unchanged. -/
def NonEmptyString.shrink_to (s : NonEmptyString) (capacity : Size) : NonEmptyString :=
  s

/-- Truncation of a plain String (String::truncate): a no-op when the new
length is not below the current one, keeps the prefix of that byte length
when it lies on a character boundary, and panics (none) otherwise. -/
def stringTruncate (s : List Char) (new : Nat) : Option (List Char) :=
  if strLen s ≤ new then some s
  else
    match splitAtByte s new with
    | some (l, _) => some l
    | none => none

/-- Truncation to a non-zero length (NonEmptyString::truncate): the new
length is a Size, excluding zero at the type level. -/
def NonEmptyString.truncate (s : NonEmptyString) (new : Size) : Option NonEmptyString :=
  (stringTruncate s.inner new.val).map fun t => ⟨t⟩

/-- The guard predicate (NonEmptyString::next_empty): the source takes the
first character from chars().consume() and reports whether the byte length
minus that character's UTF-8 width is zero, i.e. whether the buffer is down
to its last character.  The empty case of the match is unreachable under the
invariant. -/
def NonEmptyString.next_empty (s : NonEmptyString) : Bool :=
  match s.inner with
  | [] => true
  | character :: _ => strLen s.inner - lenUtf8 character == 0

/-- Negated guard (NonEmptyString::next_non_empty). -/
def NonEmptyString.next_non_empty (s : NonEmptyString) : Bool :=
  !s.next_empty

/-- Guarded removal of the last character (NonEmptyString::pop): only
performed when next_non_empty holds, otherwise nothing is removed and the
buffer is unchanged.  Returns the removed character and the new buffer. -/
def NonEmptyString.pop (s : NonEmptyString) : Option Char × NonEmptyString :=
  if s.next_non_empty then
    match s.inner.getLast? with
    | some character => (some character, ⟨s.inner.dropLast⟩)
    | none => (none, s)
  else (none, s)

/-- Removal at a byte index in a plain String (String::remove): panics (none)
when the index is at or beyond the end or off a character boundary, and
otherwise removes and returns the character starting there. -/
def stringRemove (s : List Char) (index : Nat) : Option (Char × List Char) :=
  match splitAtByte s index with
  | some (l, character :: r) => some (character, l ++ r)
  | _ => none

/-- Guarded removal at an index (NonEmptyString::remove): when next_non_empty
fails, returns nothing removed without ever evaluating the index; otherwise
delegates to String::remove, whose panic is the outer none. -/
def NonEmptyString.remove (s : NonEmptyString) (index : Nat) :
    Option (Option Char × NonEmptyString) :=
  if s.next_non_empty then
    match stringRemove s.inner index with
    | some (character, rest) => some (some character, ⟨rest⟩)
    | none => none
  else some (none, s)

/-- Insertion of a character at a byte index in a plain String
(String::insert): panics (none) when the index is out of bounds or off a
character boundary. -/
def stringInsert (s : List Char) (index : Nat) (character : Char) : Option (List Char) :=
  (splitAtByte s index).map fun p => p.1 ++ character :: p.2

/-- Insertion of a character (NonEmptyString::insert). -/
def NonEmptyString.insert (s : NonEmptyString) (index : Nat) (character : Char) :
    Option NonEmptyString :=
  (stringInsert s.inner index character).map fun t => ⟨t⟩

/-- Insertion of a string at a byte index in a plain String
(String::insert_str): panics (none) when the index is out of bounds or off a
character boundary. -/
def stringInsertStr (s : List Char) (index : Nat) (string : List Char) :
    Option (List Char) :=
  (splitAtByte s index).map fun p => p.1 ++ string ++ p.2

/-- Insertion of a string (NonEmptyString::insert_str). -/
def NonEmptyString.insert_str (s : NonEmptyString) (index : Nat) (string : List Char) :
    Option NonEmptyString :=
  (stringInsertStr s.inner index string).map fun t => ⟨t⟩

/-- Splitting off the suffix at a non-zero byte index
(NonEmptyString::split_off): the retained prefix stays wrapped, the suffix is
returned as a plain, possibly empty String; the index is a Size, excluding
zero at the type level, and the source panic is the none outcome. -/
def NonEmptyString.split_off (s : NonEmptyString) (index : Size) :
    Option (NonEmptyString × List Char) :=
  (splitAtByte s.inner index.val).map fun p => (⟨p.1⟩, p.2)

/-- Repetition a non-zero number of times (NonEmptyStr::repeat in string.rs):
the count is a Size, excluding zero at the type level, and the result is
re-wrapped as a non-empty owned string. -/
def NonEmptyStr.repeat (s : NonEmptyStr) (count : Size) : NonEmptyString :=
  ⟨strRepeat s.inner count.val⟩

/-- Error returned when a received boxed string is empty (boxed.rs); like
EmptyString it holds the rejected boxed string, recoverable through get. -/
structure EmptyBoxedStr where
  boxed : List Char
  deriving DecidableEq

/-- Recovery of the rejected boxed string (EmptyBoxedStr::get). -/
def EmptyBoxedStr.get (e : EmptyBoxedStr) : List Char :=
  e.boxed

/-- Checked constructor of the boxed representation
(NonEmptyStr::from_boxed_str): fails with EmptyBoxedStr carrying the
rejected box exactly when it is empty. -/
def NonEmptyStr.from_boxed_str (boxed : List Char) : Except EmptyBoxedStr NonEmptyStr :=
  if boxed = [] then .error ⟨boxed⟩ else .ok ⟨boxed⟩

/-- Error returned when received byte slices are empty (EmptySlice of the
non_empty_slice support crate, used by NonEmptyBytes::try_from_slice). -/
inductive EmptySlice
  | mk
  deriving DecidableEq

/-- The low-level decode diagnostic (core::str::Utf8Error): the byte offset
up to which the input was valid UTF-8. -/
structure Utf8Error where
  valid_up_to : Nat
  deriving DecidableEq

/-- Error for non-empty bytes that are not valid UTF-8 (NonEmptyUtf8Error in
str.rs), wrapping the decode diagnostic. -/
structure NonEmptyUtf8Error where
  error : Utf8Error
  deriving DecidableEq

/-- Combined error for bytes of unknown emptiness (MaybeEmptyUtf8Error in
str.rs): either the bytes are empty, or they are non-empty but invalid. -/
inductive MaybeEmptyUtf8Error
  | Empty (e : EmptySlice)
  | Utf8 (e : NonEmptyUtf8Error)
  deriving DecidableEq

/-- Continuation-byte test for UTF-8 decoding. -/
def isCont (b : Nat) : Bool :=
  0x80 ≤ b && b ≤ 0xBF

/-- Admissible second byte of a three-byte sequence, restricted for 0xE0
(overlong) and 0xED (surrogates) exactly as the host validator does. -/
def cont3Fst (b0 b1 : Nat) : Bool :=
  if b0 = 0xE0 then 0xA0 ≤ b1 && b1 ≤ 0xBF
  else if b0 = 0xED then 0x80 ≤ b1 && b1 ≤ 0x9F
  else isCont b1

/-- Admissible second byte of a four-byte sequence, restricted for 0xF0
(overlong) and 0xF4 (beyond U+10FFFF) exactly as the host validator does. -/
def cont4Fst (b0 b1 : Nat) : Bool :=
  if b0 = 0xF0 then 0x90 ≤ b1 && b1 ≤ 0xBF
  else if b0 = 0xF4 then 0x80 ≤ b1 && b1 ≤ 0x8F
  else isCont b1

/-- UTF-8 decoder (the host primitive str::from_utf8 /
String::from_utf8).  Decodes the byte list into characters, or reports the
byte offset at which the first invalid or incomplete sequence starts, which
is the valid_up_to value of the resulting Utf8Error. -/
def utf8DecodeFrom (bytes : List Nat) (pos : Nat) : Except Nat (List Char) :=
  match bytes with
  | [] => .ok []
  | b0 :: rest =>
    if b0 ≤ 0x7F then
      (utf8DecodeFrom rest (pos + 1)).map fun cs => Char.ofNat b0 :: cs
    else if b0 ≤ 0xC1 then .error pos
    else if b0 ≤ 0xDF then
      match rest with
      | b1 :: rest1 =>
        if isCont b1 then
          (utf8DecodeFrom rest1 (pos + 2)).map fun cs =>
            Char.ofNat ((b0 - 0xC0) * 0x40 + (b1 - 0x80)) :: cs
        else .error pos
      | [] => .error pos
    else if b0 ≤ 0xEF then
      match rest with
      | b1 :: b2 :: rest2 =>
        if cont3Fst b0 b1 && isCont b2 then
          (utf8DecodeFrom rest2 (pos + 3)).map fun cs =>
            Char.ofNat ((b0 - 0xE0) * 0x1000 + (b1 - 0x80) * 0x40 + (b2 - 0x80)) :: cs
        else .error pos
      | _ => .error pos
    else if b0 ≤ 0xF4 then
      match rest with
      | b1 :: b2 :: b3 :: rest3 =>
        if cont4Fst b0 b1 && isCont b2 && isCont b3 then
          (utf8DecodeFrom rest3 (pos + 4)).map fun cs =>
            Char.ofNat
              ((b0 - 0xF0) * 0x40000 + (b1 - 0x80) * 0x1000
                + (b2 - 0x80) * 0x40 + (b3 - 0x80)) :: cs
        else .error pos
      | _ => .error pos
    else .error pos
  termination_by bytes.length
  decreasing_by all_goals simp_arith

/-- Entry point of the decoder, starting at offset zero. -/
def utf8Decode (bytes : List Nat) : Except Nat (List Char) :=
  utf8DecodeFrom bytes 0

/-- Emptiness gate on byte slices (NonEmptyBytes::try_from_slice of the
non_empty_slice support crate): fails exactly on the empty slice. -/
def NonEmptyBytes.try_from_slice (bytes : List Nat) : Except EmptySlice (List Nat) :=
  if bytes = [] then .error .mk else .ok bytes

/-- Conversion of known non-empty bytes to the borrowed view
(NonEmptyStr::from_non_empty_utf8): only the UTF-8 validity can fail. -/
def NonEmptyStr.from_non_empty_utf8 (non_empty : List Nat) :
    Except NonEmptyUtf8Error NonEmptyStr :=
  match utf8Decode non_empty with
  | .error n => .error ⟨⟨n⟩⟩
  | .ok cs => .ok ⟨cs⟩

/-- Conversion of bytes of unknown emptiness to the borrowed view
(NonEmptyStr::from_utf8): the emptiness gate runs first and its failure is
the Empty variant, then the UTF-8 validation runs and its failure is the
Utf8 variant. -/
def NonEmptyStr.from_utf8 (bytes : List Nat) : Except MaybeEmptyUtf8Error NonEmptyStr :=
  match NonEmptyBytes.try_from_slice bytes with
  | .error e => .error (.Empty e)
  | .ok non_empty =>
    match NonEmptyStr.from_non_empty_utf8 non_empty with
    | .error e => .error (.Utf8 e)
    | .ok s => .ok s

/-- Error returned when a received byte vector is empty (EmptyByteVec of the
non_empty_slice support crate): holds the rejected vector. -/
structure EmptyByteVec where
  bytes : List Nat
  deriving DecidableEq

/-- Emptiness gate on owned byte vectors (NonEmptyByteVec::new): fails
exactly on the empty vector, carrying it back. -/
def NonEmptyByteVec.new (bytes : List Nat) : Except EmptyByteVec (List Nat) :=
  if bytes = [] then .error ⟨bytes⟩ else .ok bytes

/-- Error coupling the UTF-8 diagnostic with the rejected non-empty byte
vector (FromNonEmptyUtf8Error in string.rs). -/
structure FromNonEmptyUtf8Error where
  error : NonEmptyUtf8Error
  bytes : List Nat
  deriving DecidableEq

/-- Combined error for owned byte vectors of unknown emptiness
(FromMaybeEmptyUtf8Error in string.rs). -/
inductive FromMaybeEmptyUtf8Error
  | Empty (e : EmptyByteVec)
  | Utf8 (e : FromNonEmptyUtf8Error)
  deriving DecidableEq

/-- Conversion of a known non-empty byte vector to the owned buffer
(NonEmptyString::from_non_empty_utf8): on decode failure the diagnostic and
the reclaimed bytes are both carried in the error. -/
def NonEmptyString.from_non_empty_utf8 (non_empty : List Nat) :
    Except FromNonEmptyUtf8Error NonEmptyString :=
  match utf8Decode non_empty with
  | .error n => .error ⟨⟨⟨n⟩⟩, non_empty⟩
  | .ok cs => .ok ⟨cs⟩

/-- Conversion of a byte vector of unknown emptiness to the owned buffer
(NonEmptyString::from_utf8): the emptiness gate (NonEmptyByteVec::new) runs
first, then the UTF-8 validation. -/
def NonEmptyString.from_utf8 (bytes : List Nat) :
    Except FromMaybeEmptyUtf8Error NonEmptyString :=
  match NonEmptyByteVec.new bytes with
  | .error e => .error (.Empty e)
  | .ok non_empty =>
    match NonEmptyString.from_non_empty_utf8 non_empty with
    | .error e => .error (.Utf8 e)
    | .ok s => .ok s

/-- The data model of the serialization boundary, restricted to what string
serialization produces: a plain string value. -/
inductive SerdeValue
  | str (string : List Char)
  deriving DecidableEq

/-- Serialization of a plain string by the host framework (the Serialize
implementation of str / String that the wrappers delegate to). -/
def serializeStr (string : List Char) : SerdeValue :=
  .str string

/-- Serialization of the borrowed view (Serialize for NonEmptyStr in
serde.rs): delegates to the serialization of as_str with no framing. -/
def NonEmptyStr.serialize (s : NonEmptyStr) : SerdeValue :=
  serializeStr s.as_str

/-- Serialization of the owned buffer (Serialize for NonEmptyString in
serde.rs): delegates to the serialization of as_string with no framing. -/
def NonEmptyString.serialize (s : NonEmptyString) : SerdeValue :=
  serializeStr s.as_string

/-- Decode-time error of the deserializer (D::Error::custom applied to the
display of the constructor error). -/
inductive DeserializeError
  | custom (message : List Char)
  deriving DecidableEq

/-- The display message of EmptyString (the EMPTY_STRING constant of
string.rs), which D::Error::custom captures. -/
def EMPTY_STRING : List Char :=
  "the string is empty".data

/-- Deserialization of a plain string by the host framework. -/
def deserializeStr (value : SerdeValue) : List Char :=
  match value with
  | .str string => string

/-- Deserialization of the owned buffer (Deserialize for NonEmptyString in
serde.rs): deserializes a plain String, then re-validates through
NonEmptyString::new, mapping its error through D::Error::custom. -/
def NonEmptyString.deserialize (value : SerdeValue) :
    Except DeserializeError NonEmptyString :=
  match NonEmptyString.new (deserializeStr value) with
  | .error _ => .error (.custom EMPTY_STRING)
  | .ok s => .ok s

theorem lenUtf8_pos (c : Char) : 0 < lenUtf8 c := by
  unfold lenUtf8
  split_ifs <;> omega

theorem strLen_nil : strLen [] = 0 :=
  rfl

theorem strLen_cons (c : Char) (cs : List Char) :
    strLen (c :: cs) = lenUtf8 c + strLen cs := by
  simp [strLen]

theorem strLen_append (a b : List Char) :
    strLen (a ++ b) = strLen a + strLen b := by
  simp [strLen]

theorem strLen_eq_zero (s : List Char) : strLen s = 0 ↔ s = [] := by
  constructor
  · intro h
    cases s with
    | nil => rfl
    | cons c cs =>
      have hc := lenUtf8_pos c
      rw [strLen_cons] at h
      omega
  · intro h
    subst h
    rfl

theorem splitAtByte_some {s l r : List Char} {i : Nat}
    (h : splitAtByte s i = some (l, r)) : l ++ r = s ∧ strLen l = i := by
  induction s generalizing i l r with
  | nil =>
    cases i with
    | zero =>
      simp only [splitAtByte, Option.some.injEq, Prod.mk.injEq] at h
      obtain ⟨hl, hr⟩ := h
      subst hl
      subst hr
      exact ⟨rfl, rfl⟩
    | succ n => simp [splitAtByte] at h
  | cons c cs ih =>
    cases i with
    | zero =>
      simp only [splitAtByte, Option.some.injEq, Prod.mk.injEq] at h
      obtain ⟨hl, hr⟩ := h
      subst hl
      subst hr
      exact ⟨rfl, rfl⟩
    | succ n =>
      simp only [splitAtByte] at h
      split at h
      next hle =>
        rw [Option.map_eq_some'] at h
        obtain ⟨⟨l', r'⟩, hsp, heq⟩ := h
        obtain ⟨h1, h2⟩ := ih hsp
        simp only [Prod.mk.injEq] at heq
        obtain ⟨hl, hr⟩ := heq
        subst hl
        subst hr
        constructor
        · simp [h1]
        · rw [strLen_cons, h2]
          omega
      next hle => simp at h

theorem splitAtByte_isSome (s : List Char) (i : Nat) :
    (splitAtByte s i).isSome = strIsCharBoundary s i := by
  induction s generalizing i with
  | nil => cases i <;> simp [splitAtByte, strIsCharBoundary]
  | cons c cs ih =>
    cases i with
    | zero => simp [splitAtByte, strIsCharBoundary]
    | succ n =>
      simp only [splitAtByte, strIsCharBoundary]
      split
      · cases hsp : splitAtByte cs (n + 1 - lenUtf8 c) with
        | none =>
          have := ih (n + 1 - lenUtf8 c)
          rw [hsp] at this
          simp [hsp, ← this]
        | some p =>
          have := ih (n + 1 - lenUtf8 c)
          rw [hsp] at this
          simp [hsp, ← this]
      · simp

theorem next_empty_iff (s : NonEmptyString) (h : s.inner ≠ []) :
    s.next_empty = true ↔ s.inner.length = 1 := by
  obtain ⟨inner⟩ := s
  cases inner with
  | nil => simp at h
  | cons c cs =>
    show (strLen (c :: cs) - lenUtf8 c == 0) = true ↔ (c :: cs).length = 1
    rw [beq_iff_eq, strLen_cons, Nat.add_sub_cancel_left]
    rw [strLen_eq_zero]
    cases cs <;> simp

theorem extend_inner (s : NonEmptyString) (ts : List (List Char)) :
    (s.extend ts).inner = s.inner ++ ts.flatten := by
  induction ts generalizing s with
  | nil => simp [NonEmptyString.extend]
  | cons t ts ih =>
    show (NonEmptyString.extend (s.push_str t) ts).inner = _
    rw [ih]
    simp [NonEmptyString.push_str]

theorem strLen_strRepeat (s : List Char) (count : Nat) :
    strLen (strRepeat s count) = count * strLen s := by
  induction count with
  | zero => simp [strRepeat, strLen]
  | succ n ih =>
    simp only [strRepeat, List.replicate_succ, List.flatten_cons] at ih ⊢
    rw [strLen_append, ih]
    ring

/-- The property asserted by the invariant claim for one buffer: the length
is a non-zero Size, and every mutating operation (push, push_str, insert,
insert_str, extend, reserve, shrink, truncate at a non-zero Size, split_off
at a non-zero Size, pop, remove) leaves the buffer non-empty whenever it
returns. -/
def MutatorsPreserve (s : NonEmptyString) : Prop :=
  0 < s.len ∧
  (∀ character, (s.push character).inner ≠ []) ∧
  (∀ string, (s.push_str string).inner ≠ []) ∧
  (∀ index character t, s.insert index character = some t → t.inner ≠ []) ∧
  (∀ index string t, s.insert_str index string = some t → t.inner ≠ []) ∧
  (∀ iterable, (s.extend iterable).inner ≠ []) ∧
  (∀ additional, (s.reserve additional).inner ≠ []) ∧
  s.shrink_to_fit.inner ≠ [] ∧
  (∀ capacity, (s.shrink_to capacity).inner ≠ []) ∧
  (∀ new t, s.truncate new = some t → t.inner ≠ []) ∧
  (∀ index p, s.split_off index = some p → p.1.inner ≠ []) ∧
  s.pop.2.inner ≠ [] ∧
  (∀ index p, s.remove index = some p → p.2.inner ≠ [])

theorem length_two_le_of_next_non_empty (s : NonEmptyString) (h : s.inner ≠ [])
    (hg : s.next_non_empty = true) : 2 ≤ s.inner.length := by
  have hlen : 0 < s.inner.length := List.length_pos.mpr h
  have hne : ¬s.inner.length = 1 := by
    intro h1
    have := (next_empty_iff s h).mpr h1
    simp [NonEmptyString.next_non_empty, this] at hg
  omega

/-- C1.  Every mutating operation on a non-empty owned string preserves the
non-empty invariant: for every NonEmptyString whose contents are non-empty,
push, push_str, insert, insert_str, extend, reserve, the shrink operations,
truncate at a non-zero Size, split_off at a non-zero Size, pop and remove
all leave the contents non-empty whenever they return, and len is a
non-zero Size. -/
theorem nonEmptyString_mutators_preserve_invariant (s : NonEmptyString)
    (h : s.inner ≠ []) : MutatorsPreserve s := by
  refine ⟨?_, ?_, ?_, ?_, ?_, ?_, ?_, ?_, ?_, ?_, ?_, ?_, ?_⟩
  · exact Nat.pos_of_ne_zero fun hz => h ((strLen_eq_zero _).mp hz)
  · intro character
    simp [NonEmptyString.push]
  · intro string hnil
    exact h (List.append_eq_nil.mp hnil).1
  · intro index character t ht
    simp only [NonEmptyString.insert, stringInsert, Option.map_map,
      Option.map_eq_some'] at ht
    obtain ⟨p, _, heq⟩ := ht
    subst heq
    show p.1 ++ character :: p.2 ≠ []
    simp
  · intro index string t ht
    simp only [NonEmptyString.insert_str, stringInsertStr, Option.map_map,
      Option.map_eq_some'] at ht
    obtain ⟨p, hsp, heq⟩ := ht
    subst heq
    show p.1 ++ string ++ p.2 ≠ []
    intro hnil
    simp only [List.append_eq_nil] at hnil
    exact h (by rw [← (splitAtByte_some hsp).1, hnil.1.1, hnil.2]; rfl)
  · intro iterable
    rw [extend_inner]
    intro hnil
    exact h (List.append_eq_nil.mp hnil).1
  · intro additional
    exact h
  · exact h
  · intro capacity
    exact h
  · intro new t ht
    simp only [NonEmptyString.truncate, stringTruncate, Option.map_eq_some'] at ht
    obtain ⟨u, hu, heq⟩ := ht
    subst heq
    split at hu
    · cases hu
      exact h
    · split at hu
      next l hsp =>
        cases hu
        intro hnil
        have hu2 : u = [] := hnil
        have := (splitAtByte_some hsp).2
        rw [hu2] at this
        have hpos := new.2
        simp [strLen] at this
        omega
      next => cases hu
  · intro index p hp
    simp only [NonEmptyString.split_off, Option.map_eq_some'] at hp
    obtain ⟨q, hsp, heq⟩ := hp
    subst heq
    intro hnil
    have hq : q.1 = [] := hnil
    have := (splitAtByte_some hsp).2
    rw [hq] at this
    have hpos := index.2
    simp [strLen] at this
    omega
  · unfold NonEmptyString.pop
    split
    next hg =>
      cases hlast : s.inner.getLast? with
      | none => simpa [hlast] using h
      | some character =>
        have h2 := length_two_le_of_next_non_empty s h hg
        simp only [hlast]
        intro hnil
        have : s.inner.dropLast.length = 0 := by rw [hnil]; rfl
        rw [List.length_dropLast] at this
        omega
    next => exact h
  · intro index p hp
    unfold NonEmptyString.remove at hp
    split at hp
    next hg =>
      have h2 := length_two_le_of_next_non_empty s h hg
      split at hp
      next c0 rest hrem =>
        cases hp
        simp only [stringRemove] at hrem
        split at hrem
        next l c1 r hsp =>
          cases hrem
          intro hnil
          have hnil2 : l ++ r = [] := hnil
          have hsplit := (splitAtByte_some hsp).1
          have hlen : l.length + (c0 :: r).length = s.inner.length := by
            rw [← hsplit, List.length_append]
          simp only [List.append_eq_nil] at hnil2
          rw [hnil2.1, hnil2.2] at hlen
          simp at hlen
          omega
        next => cases hrem
      next => cases hp
    next =>
      cases hp
      exact h

/-- Witness for C1 at the concrete two-character buffer "ab". -/
theorem nonEmptyString_mutators_preserve_invariant_witness :
    MutatorsPreserve ⟨['a', 'b']⟩ :=
  nonEmptyString_mutators_preserve_invariant ⟨['a', 'b']⟩ (by decide)

/-- The property asserted by the checked-construction claim for one input:
both checked constructors fail with the Empty error exactly when the input
is empty, and on success the extracted value equals the input. -/
def CheckedConstructRoundTrip (string : List Char) : Prop :=
  (NonEmptyStr.try_from_str string = .error .mk ↔ string = []) ∧
  (∀ ne, NonEmptyStr.try_from_str string = .ok ne → ne.as_str = string) ∧
  (NonEmptyString.new string = .error ⟨string⟩ ↔ string = []) ∧
  (∀ t, NonEmptyString.new string = .ok t → t.into_string = string)

/-- C2.  For every string, NonEmptyStr::try_from_str and NonEmptyString::new
fail with the Empty error if and only if the string is empty, and on success
as_str respectively into_string return exactly the input. -/
theorem checked_constructors_fail_iff_empty (string : List Char) :
    CheckedConstructRoundTrip string := by
  unfold CheckedConstructRoundTrip NonEmptyStr.try_from_str NonEmptyString.new
  split_ifs with hempty
  · subst hempty
    refine ⟨by simp, ?_, by simp, ?_⟩ <;> intro x hx <;> cases hx
  · refine ⟨by simp [hempty], ?_, by simp [hempty], ?_⟩ <;> intro x hx <;> cases hx <;> rfl

/-- Witness for C2 at the concrete inputs "a" and the empty string. -/
theorem checked_constructors_fail_iff_empty_witness :
    CheckedConstructRoundTrip ['a'] ∧ CheckedConstructRoundTrip [] :=
  ⟨checked_constructors_fail_iff_empty ['a'], checked_constructors_fail_iff_empty []⟩

/-- Counterexample for C3.  The borrowed view's checked constructor rejects
the empty input with the error value EmptyStr.mk, and EmptyStr is a
subsingleton: it is a unit type with no field, so it is exactly the flag
that the claim says the Empty errors are not — it cannot carry the rejected
value back, and the source gives it no recovery accessor. -/
theorem emptyStr_is_only_a_flag :
    NonEmptyStr.try_from_str [] = .error .mk ∧ Subsingleton EmptyStr :=
  ⟨rfl, ⟨fun a b => by cases a; cases b; rfl⟩⟩

/-- The property asserted by the amended recovery claim for one input: the
owned constructors NonEmptyString::new and NonEmptyStr::from_boxed_str fail
on the empty input with errors that carry the rejected value, recoverable
unchanged through get, while the borrowed view's constructor fails with the
data-free EmptyStr. -/
def EmptyErrorRecovery (string : List Char) : Prop :=
  NonEmptyString.new string = .error ⟨string⟩ ∧
  (EmptyString.mk string).get = string ∧
  NonEmptyStr.from_boxed_str string = .error ⟨string⟩ ∧
  (EmptyBoxedStr.mk string).get = string ∧
  NonEmptyStr.try_from_str string = .error .mk

/-- C3 (amended).  For the empty input, the owned checked constructors fail
with Empty errors that carry back the rejected empty value itself, and
recovering through get returns a value equal to the original unchanged
input; the borrowed view's checked constructor also fails with Empty, but
its error EmptyStr is a unit flag carrying no value. -/
theorem empty_error_carries_value_amended (string : List Char) (h : string = []) :
    EmptyErrorRecovery string := by
  subst h
  exact ⟨rfl, rfl, rfl, rfl, rfl⟩

/-- Witness for the amended C3 at the concrete empty input. -/
theorem empty_error_carries_value_amended_witness : EmptyErrorRecovery [] :=
  empty_error_carries_value_amended [] rfl

/-- The property asserted by the pop claim for one buffer: on a buffer
holding exactly one character pop removes nothing and leaves the contents
identical, and on a buffer holding more than one character pop removes and
returns the last character. -/
def PopGuarded (s : NonEmptyString) : Prop :=
  (s.inner.length = 1 → s.pop = (none, s)) ∧
  (1 < s.inner.length →
    ∃ character t, s.pop = (some character, t) ∧ t.inner ++ [character] = s.inner)

/-- C4.  On a NonEmptyString holding exactly one character (multi-byte
included, since the guard subtracts the UTF-8 width of the character), pop
returns none and leaves the buffer byte-for-byte identical; on a buffer of
more than one character pop removes and returns the last character, leaving
the original contents minus that character. -/
theorem pop_guarded_on_last_character (s : NonEmptyString) (h : s.inner ≠ []) :
    PopGuarded s := by
  constructor
  · intro h1
    have he : s.next_empty = true := (next_empty_iff s h).mpr h1
    unfold NonEmptyString.pop NonEmptyString.next_non_empty
    rw [he]
    rfl
  · intro h2
    have he : s.next_empty = false := by
      cases hne : s.next_empty with
      | false => rfl
      | true =>
        have := (next_empty_iff s h).mp hne
        omega
    refine ⟨s.inner.getLast h, ⟨s.inner.dropLast⟩, ?_, List.dropLast_append_getLast h⟩
    unfold NonEmptyString.pop NonEmptyString.next_non_empty
    rw [he, List.getLast?_eq_getLast s.inner h]
    rfl

/-- Witness for C4 at the concrete buffers "あ" (one three-byte character)
and "ab". -/
theorem pop_guarded_on_last_character_witness :
    PopGuarded ⟨['あ']⟩ ∧ PopGuarded ⟨['a', 'b']⟩ :=
  ⟨pop_guarded_on_last_character ⟨['あ']⟩ (by decide),
    pop_guarded_on_last_character ⟨['a', 'b']⟩ (by decide)⟩

/-- The property asserted by the splitting claim for one view and one
non-zero index: on a character boundary both split_at and split_at_checked
return a non-empty left half whose concatenation with the right half is the
original contents, and off a boundary or out of bounds split_at panics
(none) while split_at_checked returns none. -/
def SplitAtSpec (s : NonEmptyStr) (index : Size) : Prop :=
  (strIsCharBoundary s.inner index.val = true →
    ∃ l r, s.split_at index = some (l, r) ∧ s.split_at_checked index = some (l, r) ∧
      l.inner ≠ [] ∧ l.inner ++ r = s.inner) ∧
  (strIsCharBoundary s.inner index.val = false →
    s.split_at index = none ∧ s.split_at_checked index = none)

/-- C5.  For every non-empty string and every non-zero Size index (zero is
excluded at the type level) that lies on a character boundary within bounds,
split_at returns a non-empty left half with left ++ right equal to the
input; for an index out of bounds or off a character boundary split_at
panics (modelled none) and split_at_checked returns none. -/
theorem split_at_left_nonempty (s : NonEmptyStr) (h : s.inner ≠ []) (index : Size) :
    SplitAtSpec s index := by
  constructor
  · intro hb
    have hsome : (splitAtByte s.inner index.val).isSome = true := by
      rw [splitAtByte_isSome, hb]
    cases hsp : splitAtByte s.inner index.val with
    | none => rw [hsp] at hsome; cases hsome
    | some p =>
      obtain ⟨hcat, hlen⟩ := splitAtByte_some (l := p.1) (r := p.2) (by rw [hsp])
      refine ⟨⟨p.1⟩, p.2, ?_, ?_, ?_, hcat⟩
      · simp [NonEmptyStr.split_at, hsp]
      · simp [NonEmptyStr.split_at_checked, hsp]
      · intro hnil
        have hp1 : p.1 = [] := hnil
        rw [hp1] at hlen
        have hpos := index.2
        simp [strLen] at hlen
        omega
  · intro hb
    have hnone : (splitAtByte s.inner index.val).isSome = false := by
      rw [splitAtByte_isSome, hb]
    cases hsp : splitAtByte s.inner index.val with
    | some p => rw [hsp] at hnone; cases hnone
    | none =>
      constructor
      · simp [NonEmptyStr.split_at, hsp]
      · simp [NonEmptyStr.split_at_checked, hsp]

/-- Witness for C5 at the concrete view "あb" with the boundary index 3 and
the off-boundary index 1. -/
theorem split_at_left_nonempty_witness :
    SplitAtSpec ⟨['あ', 'b']⟩ ⟨3, by decide⟩ ∧ SplitAtSpec ⟨['あ', 'b']⟩ ⟨1, by decide⟩ :=
  ⟨split_at_left_nonempty ⟨['あ', 'b']⟩ (by decide) ⟨3, by decide⟩,
    split_at_left_nonempty ⟨['あ', 'b']⟩ (by decide) ⟨1, by decide⟩⟩

/-- The property asserted by the guarded-remove claim for one buffer: on a
buffer down to its last character, remove returns nothing removed for every
index, in bounds or not, without panicking and without changing the buffer,
and a panic of remove is only possible when the buffer holds more than one
character. -/
def RemoveGuardFirst (s : NonEmptyString) : Prop :=
  (s.inner.length = 1 → ∀ index, s.remove index = some (none, s)) ∧
  (∀ index, s.remove index = none → 1 < s.inner.length)

/-- C10.  On a NonEmptyString holding exactly one character, remove returns
none for every index, including out-of-bounds and off-boundary ones, and
never panics, because the single-character guard is evaluated before the
index is used; the out-of-bounds panic (the none outcome) can only occur
when the string holds more than one character. -/
theorem remove_guard_before_index (s : NonEmptyString) (h : s.inner ≠ []) :
    RemoveGuardFirst s := by
  constructor
  · intro h1 index
    have he : s.next_empty = true := (next_empty_iff s h).mpr h1
    unfold NonEmptyString.remove NonEmptyString.next_non_empty
    rw [he]
    rfl
  · intro index hp
    unfold NonEmptyString.remove at hp
    split at hp
    next hg => exact length_two_le_of_next_non_empty s h hg
    next => cases hp

/-- Witness for C10 at the concrete single-character buffer "あ" with the
out-of-bounds index 100. -/
theorem remove_guard_before_index_witness : RemoveGuardFirst ⟨['あ']⟩ :=
  remove_guard_before_index ⟨['あ']⟩ (by decide)

/-- The property asserted by the decode-order claim for one byte input: the
emptiness check runs before UTF-8 validation in both byte-origin
conversions, empty input always yields the Empty variant, non-empty invalid
input yields the Utf8 variant, and the Utf8 variant is never produced for
empty input. -/
def Utf8EmptyFirst (bytes : List Nat) : Prop :=
  (bytes = [] →
    NonEmptyStr.from_utf8 bytes = .error (.Empty .mk) ∧
    NonEmptyString.from_utf8 bytes = .error (.Empty ⟨bytes⟩)) ∧
  (∀ n, bytes ≠ [] → utf8Decode bytes = .error n →
    NonEmptyStr.from_utf8 bytes = .error (.Utf8 ⟨⟨n⟩⟩) ∧
    NonEmptyString.from_utf8 bytes = .error (.Utf8 ⟨⟨⟨n⟩⟩, bytes⟩)) ∧
  (∀ e, NonEmptyStr.from_utf8 bytes = .error (.Utf8 e) → bytes ≠ []) ∧
  (∀ e, NonEmptyString.from_utf8 bytes = .error (.Utf8 e) → bytes ≠ [])

theorem from_utf8_nil_str : NonEmptyStr.from_utf8 [] = .error (.Empty .mk) :=
  rfl

theorem from_utf8_nil_string : NonEmptyString.from_utf8 [] = .error (.Empty ⟨[]⟩) :=
  rfl

theorem from_utf8_ne_nil_str (bytes : List Nat) (hne : bytes ≠ []) :
    NonEmptyStr.from_utf8 bytes =
      match utf8Decode bytes with
      | .error n => .error (.Utf8 ⟨⟨n⟩⟩)
      | .ok cs => .ok ⟨cs⟩ := by
  unfold NonEmptyStr.from_utf8 NonEmptyBytes.try_from_slice NonEmptyStr.from_non_empty_utf8
  rw [if_neg hne]
  cases hd : utf8Decode bytes <;> simp [hd]

theorem from_utf8_ne_nil_string (bytes : List Nat) (hne : bytes ≠ []) :
    NonEmptyString.from_utf8 bytes =
      match utf8Decode bytes with
      | .error n => .error (.Utf8 ⟨⟨⟨n⟩⟩, bytes⟩)
      | .ok cs => .ok ⟨cs⟩ := by
  unfold NonEmptyString.from_utf8 NonEmptyByteVec.new NonEmptyString.from_non_empty_utf8
  rw [if_neg hne]
  cases hd : utf8Decode bytes <;> simp [hd]

/-- C6.  In NonEmptyStr::from_utf8 and NonEmptyString::from_utf8 emptiness
is checked before UTF-8 validity: empty input always yields the Empty
variant of the combined error, non-empty input that is not valid UTF-8
yields the Utf8 variant, and the Utf8 variant is never produced for empty
input. -/
theorem from_utf8_checks_empty_first (bytes : List Nat) : Utf8EmptyFirst bytes := by
  by_cases hb : bytes = []
  · subst hb
    refine ⟨fun _ => ⟨from_utf8_nil_str, from_utf8_nil_string⟩, ?_, ?_, ?_⟩
    · intro n hne _
      exact absurd rfl hne
    · intro e hx
      rw [from_utf8_nil_str] at hx
      simp at hx
    · intro e hx
      rw [from_utf8_nil_string] at hx
      simp at hx
  · refine ⟨fun hx => absurd hx hb, ?_, fun _ _ => hb, fun _ _ => hb⟩
    intro n hne hdec
    constructor
    · rw [from_utf8_ne_nil_str bytes hb, hdec]
    · rw [from_utf8_ne_nil_string bytes hb, hdec]

/-- Witness for C6 at the concrete non-empty invalid input [0xFF] and the
empty input. -/
theorem from_utf8_checks_empty_first_witness :
    Utf8EmptyFirst [0xFF] ∧ Utf8EmptyFirst [] :=
  ⟨from_utf8_checks_empty_first [0xFF], from_utf8_checks_empty_first []⟩

/-- The property asserted by the repeat claim for one view and one non-zero
count: the result is the input repeated count times, it is non-empty, and
its byte length is count times the byte length of the input. -/
def RepeatSpec (s : NonEmptyStr) (count : Size) : Prop :=
  (s.repeat count).into_string = strRepeat s.inner count.val ∧
  (s.repeat count).inner ≠ [] ∧
  (s.repeat count).len = count.val * s.len

/-- C7.  For every non-empty string and every non-zero Size count (zero is
excluded at the type level), repeat returns a non-empty string whose content
is the input repeated count times and whose byte length is count times the
byte length of the input. -/
theorem repeat_nonzero_nonempty_length (s : NonEmptyStr) (h : s.inner ≠ [])
    (count : Size) : RepeatSpec s count := by
  refine ⟨rfl, ?_, ?_⟩
  · intro hnil
    have hn : strRepeat s.inner count.val = [] := hnil
    have hlen := strLen_strRepeat s.inner count.val
    rw [hn] at hlen
    have hpos := count.2
    have hs : 0 < strLen s.inner :=
      Nat.pos_of_ne_zero fun hz => h ((strLen_eq_zero _).mp hz)
    rw [strLen_nil] at hlen
    exact absurd hlen.symm (Nat.mul_pos hpos hs).ne'
  · show strLen (strRepeat s.inner count.val) = count.val * strLen s.inner
    exact strLen_strRepeat s.inner count.val

/-- Witness for C7 at the concrete view "ab" with count 3. -/
theorem repeat_nonzero_nonempty_length_witness :
    RepeatSpec ⟨['a', 'b']⟩ ⟨3, by decide⟩ :=
  repeat_nonzero_nonempty_length ⟨['a', 'b']⟩ (by decide) ⟨3, by decide⟩

/-- The property asserted by the serialization claim for one buffer: the
wrapper serializes exactly as the plain string it wraps, with no framing;
deserializing that output returns the same value; deserializing any
non-empty plain string succeeds with that value; and deserializing the
empty string fails with the decode-time error carrying the Empty message of
the checked constructor.  The borrowed view's serialization is likewise the
plain serialization of its contents. -/
def SerdeTransparent (s : NonEmptyString) : Prop :=
  s.serialize = serializeStr s.as_string ∧
  NonEmptyString.deserialize s.serialize = .ok s ∧
  (∀ v : NonEmptyStr, v.serialize = serializeStr v.as_str) ∧
  (∀ string : List Char, string ≠ [] →
    NonEmptyString.deserialize (.str string) = .ok ⟨string⟩) ∧
  NonEmptyString.deserialize (.str []) = .error (.custom EMPTY_STRING)

/-- C8.  A non-empty string serializes identically to the plain string it
wraps, with no wrapper framing; deserialization re-validates non-emptiness:
an empty string fails with a decode-time error carrying the Empty message of
the checked constructor, and a non-empty string deserializes to the same
value. -/
theorem serde_wrapper_transparent (s : NonEmptyString) (h : s.inner ≠ []) :
    SerdeTransparent s := by
  refine ⟨rfl, ?_, fun v => rfl, ?_, rfl⟩
  · show NonEmptyString.deserialize (.str s.inner) = .ok s
    unfold NonEmptyString.deserialize deserializeStr NonEmptyString.new
    rw [if_neg h]
  · intro t ht
    unfold NonEmptyString.deserialize deserializeStr NonEmptyString.new
    rw [if_neg ht]

/-- Witness for C8 at the concrete buffer "x". -/
theorem serde_wrapper_transparent_witness : SerdeTransparent ⟨['x']⟩ :=
  serde_wrapper_transparent ⟨['x']⟩ (by decide)
